import Mathlib

/-!
Shallow embedding of the MirrorBlade control-plane sidecar, for checking its
natural-language specification against the code.

Numeric JSON payloads and the float-valued state are modelled over `ℚ`
(the clamping and dispatch logic under scrutiny is order/equality logic that
is unaffected by rounding); the trigonometric curve evaluators are modelled
over `ℝ`.  Each definition mirrors one function of the C++ source, named
after it; the file comments cite the source file.
-/

namespace MirrorBlade

/-- JSON-like values (`nlohmann::json`), with numbers as rationals. -/
inductive JVal : Type
  | null
  | jbool (b : Bool)
  | num (q : ℚ)
  | str (s : String)
  | arr (elems : List JVal)
  | obj (fields : List (String × JVal))
  deriving Repr

/-- `j.find(k)` on an object: first field with the given key, if any. -/
def JVal.find : JVal → String → Option JVal
  | .obj fields, k => fields.lookup k
  | _, _ => none

/-- `a.value(k, d)` for a numeric default `d`: a missing key yields the
default, a numeric member yields its number, any other member raises a
type error (modelled as `Except.error`). -/
def JVal.valueNum (a : JVal) (k : String) (d : ℚ) : Except String ℚ :=
  match a.find k with
  | none => .ok d
  | some (.num q) => .ok q
  | some _ => .error "type error"

/-- `a.value(k, d)` for a boolean default `d`. -/
def JVal.valueBool (a : JVal) (k : String) (d : Bool) : Except String Bool :=
  match a.find k with
  | none => .ok d
  | some (.jbool b) => .ok b
  | some _ => .error "type error"

/-! ## MirrorBladeOps state (src/src/MirrorBladeInstance.cpp,
     src/include/MirrorBladeOps.hpp) -/

/-- The mutable fields of the `MirrorBladeOps` singleton. -/
structure MBOpsState : Type where
  upscalerEnabled : Bool
  trafficMultiplier : ℚ
  deriving Repr, DecidableEq

/-- Initial values of the `MirrorBladeOps` members. -/
def MBOpsState.init : MBOpsState := { upscalerEnabled := false, trafficMultiplier := 1 }

/-- `MirrorBladeOps::ClampTraffic` (MirrorBladeOps.hpp):
`if (v < 0.10f) return 0.10f; if (v > 50.0f) return 50.0f; return v;` -/
def ClampTraffic (v : ℚ) : ℚ :=
  if v < 1/10 then 1/10 else if v > 50 then 50 else v

/-- `MirrorBladeOps::SetTrafficBoost` (MirrorBladeInstance.cpp): clamps,
stores, and returns the stored multiplier. -/
def SetTrafficBoost (st : MBOpsState) (multiplier : ℚ) : MBOpsState × ℚ :=
  let m := ClampTraffic multiplier
  ({ st with trafficMultiplier := m }, m)

/-- `MirrorBladeOps::EnableUpscaler` (MirrorBladeInstance.cpp). -/
def EnableUpscaler (st : MBOpsState) (enabled : Bool) : MBOpsState × Bool :=
  ({ st with upscalerEnabled := enabled }, enabled)

/-! ## TGDK operation registry (src/src/TGDKOps.cpp)

`Ops::RegisterAll` fills `_map`; the handlers below embed the entries this
development reasons about (the numeric curve operations return
trigonometric values and are modelled separately over `ℝ`). -/

/-- A registered handler: current `MirrorBladeOps` state and the `args`
object in, new state and reply JSON out; `Except.error` models a thrown
C++ exception. -/
def OpHandler : Type := MBOpsState → JVal → Except String (MBOpsState × JVal)

/-- The `traffic.mul` lambda of `Ops::RegisterAll` (TGDKOps.cpp):
reads `mult` (default 1.0), calls `SetTrafficBoost`, replies
`ok=true, result=<stored value>`. -/
def trafficMulHandler : OpHandler := fun st a => do
  let f ← a.valueNum "mult" 1
  let (st2, result) := SetTrafficBoost st f
  .ok (st2, .obj [("ok", .jbool true), ("result", .num result)])

/-- The `upscaler.enable` lambda of `Ops::RegisterAll` (TGDKOps.cpp). -/
def upscalerEnableHandler : OpHandler := fun st a => do
  let en ← a.valueBool "enabled" false
  let (st2, result) := EnableUpscaler st en
  .ok (st2, .obj [("ok", .jbool true), ("result", .jbool result)])

/-- The `ping` lambda of `Ops::RegisterAll` (TGDKOps.cpp):
`return json{ ok, true , result, "pong" };`. -/
def pingHandler : OpHandler := fun st _ =>
  .ok (st, .obj [("ok", .jbool true), ("result", .str "pong")])

/-- The part of the `Ops::_map` registry built by `Ops::RegisterAll`
(TGDKOps.cpp) that the claims under check exercise. -/
def tgdkRegistry : List (String × OpHandler) :=
  [("upscaler.enable", upscalerEnableHandler),
   ("traffic.mul", trafficMulHandler),
   ("ping", pingHandler)]

/-- `Ops::Dispatch` (TGDKOps.cpp): unknown op yields an error envelope;
a handler exception is caught and converted to `ok=false, error=<msg>`. -/
def OpsDispatch (st : MBOpsState) (op : String) (args : JVal) : MBOpsState × JVal :=
  match tgdkRegistry.lookup op with
  | none => (st, .obj [("ok", .jbool false), ("error", .str ("Unknown op: " ++ op))])
  | some h =>
    match h st args with
    | .ok (st2, j) => (st2, j)
    | .error e => (st, .obj [("ok", .jbool false), ("error", .str e)])

/-! ## Recovery smoother (src/src/RecoveryInterfold.cpp, header in
     src/unnamed/part_005) -/

/-- `RecoveryInterfold::Params` with the header's default initializers. -/
structure RIParams : Type where
  enabled : Bool := true
  abideEmptiness : Bool := false
  stiffness : ℚ := 12
  damping : ℚ := 5/2
  hysteresisBand : ℚ := 1/100
  jumpThreshold : ℚ := 3/20
  cooldownSeconds : ℚ := 1/5
  cooldownGain : ℚ := 3/10
  clampEnabled : Bool := false
  clampMin : ℚ := 0
  clampMax : ℚ := 1
  snapFirstSample : Bool := true
  maxVelocity : ℚ := 1000
  deriving Repr, DecidableEq

/-- `RecoveryInterfold::State` with the header's default initializers. -/
structure RIState : Type where
  y : ℚ := 0
  v : ℚ := 0
  cooldown : ℚ := 0
  seeded : Bool := false
  deriving Repr, DecidableEq

/-- `RecoveryInterfold::clampd`. -/
def clampd (v lo hi : ℚ) : ℚ := if v < lo then lo else if v > hi then hi else v

/-- `RecoveryInterfold::integrateStep`: explicit-Euler spring-damper with
cooldown-reduced stiffness, hysteresis-band fade, velocity cap and optional
output clamp.  `dt <= 0` leaves the state untouched. -/
def integrateStep (st : RIState) (p : RIParams) (dt x : ℚ) : RIState :=
  if dt ≤ 0 then st
  else
    let k := if st.cooldown > 0 then p.stiffness * max 0 p.cooldownGain else p.stiffness
    let cooldown2 := if st.cooldown > 0 then max 0 (st.cooldown - dt) else st.cooldown
    let e := x - st.y
    let ae := |e|
    let band := p.hysteresisBand
    let bandScale := if ae < band ∧ band > 1/10^12 then ae / band else 1
    let accel := k * e * bandScale - p.damping * st.v
    let v1 := st.v + accel * dt
    let vmax := max (1/10^6) p.maxVelocity
    let v2 := if v1 > vmax then vmax else v1
    let v3 := if v2 < -vmax then -vmax else v2
    let y1 := st.y + v3 * dt
    if p.clampEnabled then
      let y2 := clampd y1 p.clampMin p.clampMax
      let v4 := if y2 ≤ p.clampMin + 1/10^6 then min v3 0 else v3
      let v5 := if y2 ≥ p.clampMax - 1/10^6 then max v4 0 else v4
      { y := y2, v := v5, cooldown := cooldown2, seeded := st.seeded }
    else
      { y := y1, v := v3, cooldown := cooldown2, seeded := st.seeded }

/-- `RecoveryInterfold::Step`: pass-through when disabled, zero under
`abideEmptiness`, optional first-sample snap, jump-triggered cooldown,
then one integration step.  Returns the new state and the output. -/
def RecoveryStep (p : RIParams) (s : RIState) (dt x : ℚ) : RIState × ℚ :=
  if !p.enabled then
    ({ y := x, v := 0, cooldown := 0, seeded := true }, x)
  else if p.abideEmptiness then
    ({ y := 0, v := 0, cooldown := 0, seeded := true }, 0)
  else if !s.seeded && p.snapFirstSample then
    ({ y := x, v := 0, cooldown := 0, seeded := true }, x)
  else
    let s1 : RIState := if s.seeded then s else { y := 0, v := 0, cooldown := 0, seeded := true }
    let jumpMag := |x - s1.y|
    let s2 : RIState :=
      if jumpMag > p.jumpThreshold then { s1 with cooldown := max s1.cooldown p.cooldownSeconds }
      else s1
    let s3 := integrateStep s2 p dt x
    (s3, s3.y)

/-! ## Telemetry event ring (src/unnamed/part_013, header in
     src/unnamed/part_003) -/

/-- `TGDKTelemetry::Event` (timestamp in epoch milliseconds, name, three
numeric payloads, tag). -/
structure TelemEvent : Type where
  t : ℤ
  name : String
  a : ℚ
  b : ℚ
  c : ℚ
  tag : String
  deriving Repr, DecidableEq

/-- The `TGDKTelemetry` members that the event-stream API touches. -/
structure TelemetryState : Type where
  optIn : Bool
  events : List TelemEvent
  limit : ℕ
  deriving Repr, DecidableEq

/-- Member initializers of `TGDKTelemetry`: `_optIn = false`, empty ring,
`_limit = 512`. -/
def TelemetryState.init : TelemetryState := { optIn := false, events := [], limit := 512 }

/-- `TGDKTelemetry::OptIn`. -/
def TelemetryOptIn (st : TelemetryState) (enabled : Bool) : TelemetryState :=
  { st with optIn := enabled }

/-- `TGDKTelemetry::Push`: `if (!_optIn) return;` then append and evict the
oldest event when the ring exceeds `_limit`. -/
def TelemetryPush (st : TelemetryState) (e : TelemEvent) : TelemetryState :=
  if !st.optIn then st
  else if (st.events ++ [e]).length > st.limit then
    { st with events := (st.events ++ [e]).tail }
  else
    { st with events := st.events ++ [e] }

/-- `TGDKTelemetry::Snapshot`: the last `min (max ? max : 1) size` events in
chronological order. -/
def TelemetrySnapshot (st : TelemetryState) (mx : ℕ) : List TelemEvent :=
  let n := min (if mx = 0 then 1 else mx) st.events.length
  st.events.drop (st.events.length - n)

/-- An event-stream call: `OptIn(b)` or `Push(e)`. -/
inductive TelemOp : Type
  | optIn (b : Bool)
  | push (e : TelemEvent)
  deriving Repr, DecidableEq

/-- Execute one telemetry call. -/
def telemApply (st : TelemetryState) : TelemOp → TelemetryState
  | .optIn b => TelemetryOptIn st b
  | .push e => TelemetryPush st e

/-- Execute a sequence of telemetry calls from a starting state. -/
def telemRun (st : TelemetryState) (ops : List TelemOp) : TelemetryState :=
  ops.foldl telemApply st

/-! ## RPC line framing (src/src/MirrorBladeBridge.cpp, `ReadLine`) -/

/-- The read loop of `ReadLine` (MirrorBladeBridge.cpp): consume one byte at
a time from `input`; a line-feed returns the accumulated buffer (and the
unread remainder); otherwise the byte is appended and
`if (buf.size() > 1'000'000) ... return nullopt` tears the session down.
Exhausting `input` models the client disconnecting. -/
def readLineAux : List Char → List Char → Option (List Char × List Char)
  | [], _ => none
  | ch :: rest, buf =>
    if ch = '\n' then some (buf, rest)
    else
      let buf2 := buf ++ [ch]
      if buf2.length > 1000000 then none else readLineAux rest buf2

/-- `ReadLine` starts each request with an empty buffer. -/
def ReadLine (input : List Char) : Option (List Char × List Char) :=
  readLineAux input []

/-! ## Figure-8 curves (src/src/TGDKFigure8Fold.cpp) -/

/-- `Figure8Fold::EvalLissajous12(t, ax, ay, w, phx, phy)`:
`x = ax*sinf(w*t + phx)`, `y = ay*sinf(2.0f*w*t + phy)` — a Lissajous
curve with the frequency ratio fixed at 1:2, modelled over `ℝ`. -/
noncomputable def EvalLissajous12 (t ax ay w phx phy : ℝ) : ℝ × ℝ :=
  (ax * Real.sin (w * t + phx), ay * Real.sin (2 * w * t + phy))

/-- The `figure8.evalLissajous12` handler (TGDKOps.cpp) reads
`t, ax, ay, nx, ny, phase` and calls
`EvalLissajous12(t, ax, ay, nx, ny, phase)`: positionally, `nx` lands on
the frequency parameter `w`, `ny` on the x-phase `phx`, and `phase` on the
y-phase `phy`. -/
noncomputable def figure8EvalLissajous12 (t ax ay nx ny phase : ℝ) : ℝ × ℝ :=
  EvalLissajous12 t ax ay nx ny phase

/-- The Lissajous formula as the spec writes it:
`(ax·sin(nx·2πt+phase), ay·sin(ny·2πt))`. -/
noncomputable def lissajousSpec (t ax ay nx ny phase : ℝ) : ℝ × ℝ :=
  (ax * Real.sin (nx * (2 * Real.pi) * t + phase),
   ay * Real.sin (ny * (2 * Real.pi) * t))

/-! ## Config persistence (src/unnamed/part_018 = MBConfig.cpp) -/

/-- `Config::LogLevel`. -/
inductive CfgLogLevel : Type
  | trace
  | debug
  | info
  | warn
  | error
  deriving Repr, DecidableEq

/-- The persisted `MB::Config` fields.  `ipcPipeName` is a `std::wstring`,
kept as its list of 16-bit code units (each `< 65536`). -/
structure Config : Type where
  upscaler : Bool
  traffic : ℚ
  ipcEnabled : Bool
  ipcPipeName : List ℕ
  logLevel : CfgLogLevel
  deriving Repr, DecidableEq

/-- `clampf` (part_018). -/
def clampf (v lo hi : ℚ) : ℚ := if v < lo then lo else if v > hi then hi else v

/-- `ParseLogLevel` (part_018): unrecognized strings fall back to `info`. -/
def ParseLogLevel (s : String) : CfgLogLevel :=
  if s = "trace" then .trace
  else if s = "debug" then .debug
  else if s = "warn" then .warn
  else if s = "error" then .error
  else .info

/-- The level string `Config::ToJSON` writes for each level. -/
def logLevelName : CfgLogLevel → String
  | .trace => "trace"
  | .debug => "debug"
  | .info => "info"
  | .warn => "warn"
  | .error => "error"

/-- `std::string(ipcPipeName.begin(), ipcPipeName.end())` applied to one
wide character: the 16-bit code unit is truncated to an 8-bit `char`
(kept here as its unsigned bit pattern `0..255`). -/
def narrowChar (u : ℕ) : ℕ := u % 256

/-- `std::wstring(pn.begin(), pn.end())` applied to one byte: a `char`
with its high bit set is negative on MSVC and sign-extends into the
16-bit `wchar_t`, giving `0xFF00 + b`; a 7-bit byte is unchanged. -/
def widenChar (b : ℕ) : ℕ := if b < 128 then b else 65280 + b

/-- The JSON object content written by `Config::ToJSON` (the fields
`LoadFromFile` recognizes; `version` is informational).  The pipe name is
stored after the byte-wise narrowing `ToJSON` performs. -/
structure CfgFile : Type where
  upscaler : Bool
  trafficBoost : ℚ
  ipcEnabled : Bool
  ipcPipeName : List ℕ
  level : String
  deriving Repr, DecidableEq

/-- `Config::ToJSON` restricted to the recognized fields. -/
def ConfigToJSON (c : Config) : CfgFile :=
  { upscaler := c.upscaler
    trafficBoost := c.traffic
    ipcEnabled := c.ipcEnabled
    ipcPipeName := c.ipcPipeName.map narrowChar
    level := logLevelName c.logLevel }

/-- `Config::LoadFromFile` applied to a file holding exactly the object
`ToJSON` wrote: `trafficBoost` is clamped to `[0.10, 50.0]`, the pipe name
is widened byte-wise, the level is parsed with info-fallback. -/
def ConfigLoad (f : CfgFile) : Config :=
  { upscaler := f.upscaler
    traffic := clampf f.trafficBoost (1/10) 50
    ipcEnabled := f.ipcEnabled
    ipcPipeName := f.ipcPipeName.map widenChar
    logLevel := ParseLogLevel f.level }

/-- A configuration whose fields are all inside their specified ranges. -/
def LegalConfig (c : Config) : Prop :=
  1/10 ≤ c.traffic ∧ c.traffic ≤ 50 ∧ ∀ u ∈ c.ipcPipeName, u < 65536

/-! ## Impound service (src/unnamed/part_019, `ImpoundLoader`) -/

/-- `charMatch(t, p)` (part_019): `p == '?' || t == p`. -/
def charMatch (t p : Char) : Bool := p = '?' || t = p

/-- The trailing `while (pi < pattern.size() && pattern[pi] == '*') ++pi;`
of `ImpoundLoader::MatchLike`. -/
def skipStars (pat : List Char) (pi : ℕ) : ℕ :=
  if h : pi < pat.length ∧ pat.getD pi ' ' = '*' then skipStars pat (pi + 1) else pi
termination_by pat.length - pi
decreasing_by omega

/-- The main `while (ti < text.size())` loop of `ImpoundLoader::MatchLike`,
with its four branches in source order (literal/`?` advance, `*`
registration, star backtrack, failure) and an explicit fuel argument;
`star`/`mark` are the last-star bookkeeping (`npos` = `none`). -/
def matchLoop (text pat : List Char) : ℕ → ℕ → ℕ → Option ℕ → ℕ → Bool
  | 0, _, _, _, _ => false
  | fuel + 1, ti, pi, star, mark =>
    if ti < text.length then
      if pi < pat.length ∧ charMatch (text.getD ti ' ') (pat.getD pi ' ') = true then
        matchLoop text pat fuel (ti + 1) (pi + 1) star mark
      else if pi < pat.length ∧ pat.getD pi ' ' = '*' then
        matchLoop text pat fuel ti (pi + 1) (some pi) ti
      else
        match star with
        | some s => matchLoop text pat fuel (mark + 1) (s + 1) (some s) (mark + 1)
        | none => false
    else
      skipStars pat pi = pat.length

/-- `ImpoundLoader::MatchLike(text, pattern)`.  The fuel bounds the loop's
termination measure, so it is never exhausted (proved below). -/
def MatchLike (text pat : List Char) : Bool :=
  matchLoop text pat ((text.length + 1) * (text.length + pat.length + 2)) 0 0 none 0

/-- An impound rule (tag and `match` pattern), part_019. -/
structure ImpoundRule : Type where
  tag : List Char
  pattern : List Char
  deriving Repr, DecidableEq

/-- `ImpoundLoader::IsImpounded`: literal membership in `_items`, or some
rule whose pattern `MatchLike`-matches the name. -/
def IsImpounded (items : List (List Char)) (rules : List ImpoundRule)
    (name : List Char) : Bool :=
  items.any (fun s => s = name) || rules.any (fun r => MatchLike name r.pattern)

/-- Declarative glob semantics, transcribed from the spec's words: `*`
matches any span of characters including the empty span, `?` matches
exactly one character, any other pattern character matches itself. -/
def gmatch : List Char → List Char → Bool
  | [], ts => ts.isEmpty
  | p :: ps, ts =>
    if p = '*' then
      gmatch ps ts ||
        (match ts with
         | [] => false
         | _ :: ts2 => gmatch (p :: ps) ts2)
    else
      match ts with
      | [] => false
      | t :: ts2 => charMatch t p && gmatch ps ts2
termination_by pat ts => (pat.length, ts.length)

/-- Invariant of `matchLoop` while no star has been registered: the
positions already consumed agree, and matching the remaining suffixes is
equivalent to the original problem. -/
def InvNone (T P : List Char) (ti pi mark : ℕ) : Prop :=
  mark ≤ ti ∧ ti ≤ T.length ∧ pi ≤ P.length ∧
  gmatch P T = gmatch (P.drop pi) (T.drop ti)

/-- Invariant of `matchLoop` with the last star at `s`, its current span
starting at `mark`: the original problem is equivalent to matching the
star-headed pattern suffix against the text from `mark`, and the segment
consumed since the star char-matches the corresponding pattern segment. -/
def InvSome (T P : List Char) (ti pi s mark : ℕ) : Prop :=
  s < P.length ∧ P.getD s ' ' = '*' ∧ mark ≤ ti ∧ ti ≤ T.length ∧
  s + 1 ≤ pi ∧ pi ≤ P.length ∧
  gmatch P T = gmatch ('*' :: P.drop (s + 1)) (T.drop mark) ∧
  ∃ tseg pseg, T.drop mark = tseg ++ T.drop ti ∧ P.drop (s + 1) = pseg ++ P.drop pi ∧
    List.Forall₂ (fun t p => charMatch t p = true) tseg pseg

/-- Termination measure of `matchLoop`'s while loop. -/
def loopMeasure (T P : List Char) (ti pi mark : ℕ) : ℕ :=
  (T.length - mark) * (T.length + P.length + 2) + (T.length - ti) + (P.length - pi)

/-! ## Priority worker pool (src/src/M4qXE.cpp)

The pool is concurrent; it is modelled as a transition system over the
shared state that `M4qXE`'s mutex guards.  Worker-thread identity is
irrelevant to the counters, so the threads are abstracted to occupancy
counts: each spawned thread is at any moment waiting on the condition
variable (`idle`), running a popped task of some lane (`busy`), or has
returned from `workerLoop` (`exited`).  Every mutex-protected section of
the C++ code is one atomic transition. -/

/-- The four lanes of `M4qXE`. -/
inductive Lane : Type
  | high
  | normal
  | low
  | io
  deriving Repr, DecidableEq

/-- `M4qXE::Config` fields the drain claim depends on. -/
structure PoolCfg : Type where
  workers : ℕ
  drainOnStop : Bool
  deriving Repr, DecidableEq

/-- One per-lane queue record (`LaneQ` in M4qXE): current `dq.size()`,
`enqCount`, `execCount`. -/
structure LaneQ : Type where
  pending : ℕ
  enq : ℕ
  exec : ℕ
  deriving Repr, DecidableEq

/-- The mutex-guarded pool state plus worker occupancy counts. -/
structure PoolSt : Type where
  running : Bool
  stopping : Bool
  qHigh : LaneQ
  qNormal : LaneQ
  qLow : LaneQ
  qIO : LaneQ
  idle : ℕ
  busyHigh : ℕ
  busyNormal : ℕ
  busyLow : ℕ
  busyIO : ℕ
  exited : ℕ
  deriving Repr, DecidableEq

/-- Lane selection mirroring the reference chains in `Enqueue`/`tryPop`. -/
def PoolSt.q (st : PoolSt) : Lane → LaneQ
  | .high => st.qHigh
  | .normal => st.qNormal
  | .low => st.qLow
  | .io => st.qIO

/-- Update one lane's queue record. -/
def PoolSt.setQ (st : PoolSt) : Lane → LaneQ → PoolSt
  | .high, v => { st with qHigh := v }
  | .normal, v => { st with qNormal := v }
  | .low, v => { st with qLow := v }
  | .io, v => { st with qIO := v }

/-- Number of workers currently executing a task of the given lane. -/
def PoolSt.busyCount (st : PoolSt) : Lane → ℕ
  | .high => st.busyHigh
  | .normal => st.busyNormal
  | .low => st.busyLow
  | .io => st.busyIO

/-- Update one lane's busy-worker count. -/
def PoolSt.setBusy (st : PoolSt) : Lane → ℕ → PoolSt
  | .high, v => { st with busyHigh := v }
  | .normal, v => { st with busyNormal := v }
  | .low, v => { st with busyLow := v }
  | .io, v => { st with busyIO := v }

/-- `hasAnyPendingUnlocked` as a count. -/
def PoolSt.pendingTotal (st : PoolSt) : ℕ :=
  st.qHigh.pending + st.qNormal.pending + st.qLow.pending + st.qIO.pending

/-- Sum of the four `enqCount` counters. -/
def PoolSt.enqTotal (st : PoolSt) : ℕ :=
  st.qHigh.enq + st.qNormal.enq + st.qLow.enq + st.qIO.enq

/-- Sum of the four `execCount` counters. -/
def PoolSt.execTotal (st : PoolSt) : ℕ :=
  st.qHigh.exec + st.qNormal.exec + st.qLow.exec + st.qIO.exec

/-- `M4qXE::Stop` with `!drainOnStop` calls `clearAllUnlocked()`. -/
def clearAllOnStop (st : PoolSt) : PoolSt :=
  { st with
    running := false
    stopping := true
    qHigh := { st.qHigh with pending := 0 }
    qNormal := { st.qNormal with pending := 0 }
    qLow := { st.qLow with pending := 0 }
    qIO := { st.qIO with pending := 0 } }

/-- The state right after `M4qXE::Start`: counters reset, `stopping`
false, `N = _cfg.workers ? _cfg.workers : 1` workers spawned and waiting. -/
def PoolInit (cfg : PoolCfg) : PoolSt :=
  { running := true, stopping := false,
    qHigh := ⟨0, 0, 0⟩, qNormal := ⟨0, 0, 0⟩, qLow := ⟨0, 0, 0⟩, qIO := ⟨0, 0, 0⟩,
    idle := if cfg.workers = 0 then 1 else cfg.workers,
    busyHigh := 0, busyNormal := 0, busyLow := 0, busyIO := 0, exited := 0 }

/-- One atomic transition of the pool.
* `enqueue`: `M4qXE::Enqueue` when it returns true (running, not
  stopping): appends to the lane and bumps `enqCount`.
* `pop`: a woken worker's `tryPop` succeeds on a non-empty lane.
* `complete`: the worker finishes its task — normally or by a caught
  exception (`thrown` is irrelevant) — and bumps the lane's `execCount`.
* `stop`: `M4qXE::Stop` on a running pool sets `stopping`; without
  `drainOnStop` it clears all pending queues.
* `exit`: a waiting worker leaves `workerLoop`: only when stopping, and
  under `drainOnStop` only once no task is pending. -/
inductive PoolStep (cfg : PoolCfg) : PoolSt → PoolSt → Prop
  | enqueue (st : PoolSt) (l : Lane) :
      st.running = true → st.stopping = false →
      PoolStep cfg st (st.setQ l ⟨(st.q l).pending + 1, (st.q l).enq + 1, (st.q l).exec⟩)
  | pop (st : PoolSt) (l : Lane) :
      0 < st.idle → 0 < (st.q l).pending →
      PoolStep cfg st
        { (st.setQ l ⟨(st.q l).pending - 1, (st.q l).enq, (st.q l).exec⟩).setBusy l
            (st.busyCount l + 1) with idle := st.idle - 1 }
  | complete (st : PoolSt) (l : Lane) (thrown : Bool) :
      0 < st.busyCount l →
      PoolStep cfg st
        { (st.setQ l ⟨(st.q l).pending, (st.q l).enq, (st.q l).exec + 1⟩).setBusy l
            (st.busyCount l - 1) with idle := st.idle + 1 }
  | stop (st : PoolSt) :
      st.running = true →
      PoolStep cfg st
        (if cfg.drainOnStop then { st with running := false, stopping := true }
         else clearAllOnStop st)
  | exit (st : PoolSt) :
      0 < st.idle → st.stopping = true →
      (cfg.drainOnStop = true → st.pendingTotal = 0) →
      PoolStep cfg st { st with idle := st.idle - 1, exited := st.exited + 1 }

/-- `stop()` has returned: `stopping` was set and every worker thread has
been joined, i.e. no thread is still waiting or executing. -/
def StopReturned (st : PoolSt) : Prop :=
  st.stopping = true ∧ st.idle = 0 ∧ st.busyHigh = 0 ∧ st.busyNormal = 0 ∧
    st.busyLow = 0 ∧ st.busyIO = 0

/-- Inductive invariant of the pool under `drain_on_stop = true`:
per-lane conservation (`enq = exec + pending + busy`), flag consistency,
exits only after stop, drained queues once all workers are gone, and a
positive thread count. -/
def PoolInv (st : PoolSt) : Prop :=
  st.qHigh.enq = st.qHigh.exec + st.qHigh.pending + st.busyHigh ∧
  st.qNormal.enq = st.qNormal.exec + st.qNormal.pending + st.busyNormal ∧
  st.qLow.enq = st.qLow.exec + st.qLow.pending + st.busyLow ∧
  st.qIO.enq = st.qIO.exec + st.qIO.pending + st.busyIO ∧
  (st.stopping = true → st.running = false) ∧
  (0 < st.exited → st.stopping = true) ∧
  (st.stopping = true ∧ st.idle = 0 ∧ st.busyHigh = 0 ∧ st.busyNormal = 0 ∧
    st.busyLow = 0 ∧ st.busyIO = 0 → st.pendingTotal = 0) ∧
  0 < st.idle + st.busyHigh + st.busyNormal + st.busyLow + st.busyIO + st.exited

/-! ## Expression evaluator and compound loader (src/unnamed/part_019)

The lexer walks an index into a fixed string; here it is modelled on the
remaining character list (the same function of the unconsumed input).
Numbers are rationals (`strtod` of a plain decimal).  The shunting-yard
loop (`emitRPN`) carries an explicit fuel that bounds its iteration count
(each iteration consumes at least one input character); the claims below
evaluate it on concrete inputs, far below the bound. -/

/-- `std::isdigit` (C locale, ASCII). -/
def isDigitC (c : Char) : Bool := 48 ≤ c.toNat && c.toNat ≤ 57

/-- `std::isalpha` (C locale, ASCII). -/
def isAlphaC (c : Char) : Bool :=
  (65 ≤ c.toNat && c.toNat ≤ 90) || (97 ≤ c.toNat && c.toNat ≤ 122)

/-- `std::isalnum` (C locale, ASCII). -/
def isAlnumC (c : Char) : Bool := isDigitC c || isAlphaC c

/-- `std::isspace` (C locale). -/
def isSpaceC (c : Char) : Bool :=
  c.toNat = 32 || c.toNat = 9 || c.toNat = 10 || c.toNat = 11 ||
    c.toNat = 12 || c.toNat = 13

/-- `Lexer::isIdStart`. -/
def isIdStart (c : Char) : Bool := isAlphaC c || c = '_'

/-- `Lexer::isId`. -/
def isIdChar (c : Char) : Bool := isAlnumC c || c = '_' || c = '.'

/-- Kinds of `Token`. -/
inductive TokKind : Type
  | num
  | id
  | lparen
  | rparen
  | comma
  | op
  | endTok
  deriving Repr, DecidableEq

/-- `Token` (kind, text for Id/Op, numeric value for Num). -/
structure Token : Type where
  kind : TokKind
  text : String
  numv : ℚ
  deriving Repr, DecidableEq

/-- The End token. -/
def endToken : Token := ⟨.endTok, "", 0⟩

/-- The `(` token produced when a function name is recognized. -/
def lparenToken : Token := ⟨.lparen, "(", 0⟩

/-- Digit run to a natural number. -/
def digitsToNat (cs : List Char) : ℕ :=
  cs.foldl (fun acc c => acc * 10 + (c.toNat - 48)) 0

/-- The exponent part of `strtod` (`e`/`E`, optional sign, digit run). -/
def applyExp (v : ℚ) : List Char → ℚ
  | e :: rest =>
    if e = 'e' || e = 'E' then
      match rest with
      | '+' :: ds => v * 10 ^ digitsToNat (ds.takeWhile isDigitC)
      | '-' :: ds => v / 10 ^ digitsToNat (ds.takeWhile isDigitC)
      | ds => v * 10 ^ digitsToNat (ds.takeWhile isDigitC)
    else v
  | [] => v

/-- `strtod` on the scanned number characters: integer part, optional
fraction after the first `.`, optional exponent. -/
def parseNumber (cs : List Char) : ℚ :=
  let ip : ℚ := digitsToNat (cs.takeWhile isDigitC)
  match cs.dropWhile isDigitC with
  | '.' :: rest2 =>
    let frac := rest2.takeWhile isDigitC
    applyExp (ip + (digitsToNat frac : ℚ) / 10 ^ frac.length) (rest2.dropWhile isDigitC)
  | rest => applyExp ip rest

/-- `Lexer::next` on the unconsumed input: skip spaces, scan a number
(digits/dots then optional exponent), an identifier, or a single-char
token; any other character yields End ("treat as end for safety"). -/
def lexNext : List Char → Token × List Char
  | [] => (endToken, [])
  | c :: rest =>
    if isSpaceC c then lexNext rest
    else if isDigitC c
        || (c = '.' && (match rest with | r :: _ => isDigitC r | [] => false)) then
      let isNumChar : Char → Bool := fun x => isDigitC x || x = '.'
      let body := (c :: rest).takeWhile isNumChar
      let rest1 := (c :: rest).dropWhile isNumChar
      match rest1 with
      | e :: rest2 =>
        if e = 'e' || e = 'E' then
          match rest2 with
          | sgn :: rest3 =>
            if sgn = '+' || sgn = '-' then
              (⟨.num, "", parseNumber (body ++ e :: sgn :: rest3.takeWhile isDigitC)⟩,
               rest3.dropWhile isDigitC)
            else
              (⟨.num, "", parseNumber (body ++ e :: rest2.takeWhile isDigitC)⟩,
               rest2.dropWhile isDigitC)
          | [] => (⟨.num, "", parseNumber (body ++ [e])⟩, [])
        else (⟨.num, "", parseNumber body⟩, rest1)
      | [] => (⟨.num, "", parseNumber body⟩, [])
    else if isIdStart c then
      (⟨.id, String.mk (c :: rest.takeWhile isIdChar), 0⟩, rest.dropWhile isIdChar)
    else if c = '(' then (⟨.lparen, "(", 0⟩, rest)
    else if c = ')' then (⟨.rparen, ")", 0⟩, rest)
    else if c = ',' then (⟨.comma, ",", 0⟩, rest)
    else if c = '+' || c = '-' || c = '*' || c = '/' || c = '^' then
      (⟨.op, String.mk [c], 0⟩, rest)
    else (endToken, rest)

/-- `precedence`. -/
def precedence (s : String) : ℕ :=
  if s = "^" then 4
  else if s = "*" || s = "/" then 3
  else if s = "+" || s = "-" then 2
  else if s = "neg" then 5
  else 0

/-- `rightAssoc`. -/
def rightAssoc (s : String) : Bool := s = "^" || s = "neg"

/-- `!fn.empty() && std::isalpha(fn[0])`. -/
def isFnName (s : String) : Bool :=
  match s.data with
  | c :: _ => isAlphaC c
  | [] => false

/-- One RPN node (`RPN::Node`). -/
inductive RPNNode : Type
  | num (v : ℚ)
  | var (name : String)
  | op (sym : String) (argc : ℕ)
  deriving Repr, DecidableEq

/-- The comma/`)` unwind: pop operators (emitted with argc 2) until the
stack's top is `(` (stacks grow at the head here, as `push_back`/`back`
grow the vector's end). -/
def unwindToParen : List String → List RPNNode → List String × List RPNNode
  | [], out => ([], out)
  | top :: rest, out =>
    if top = "(" then (top :: rest, out)
    else unwindToParen rest (out ++ [.op top 2])

/-- The operator-precedence unwind of the Op branch. -/
def popWhileOps (sym : String) : List String → List RPNNode → List String × List RPNNode
  | [], out => ([], out)
  | top :: rest, out =>
    if top = "(" || (isFnName top && top ≠ "neg") then (top :: rest, out)
    else
      if (rightAssoc sym && precedence sym < precedence top)
          || (!rightAssoc sym && precedence sym ≤ precedence top) then
        popWhileOps sym rest (out ++ [.op top (if top = "neg" then 1 else 2)])
      else (top :: rest, out)

/-- The final drain of the operator stack; a leftover `(` is an error. -/
def drainOps : List String → List RPNNode → Except String (List RPNNode)
  | [], out => .ok out
  | top :: rest, out =>
    if top = "(" then .error "Mismatched lparen"
    else drainOps rest (out ++ [.op top (if top = "neg" then 1 else 2)])

/-- The `for (;;)` loop of `emitRPN`.  Note the Id branch: it peeks the
next token with `lx.next()`; when that token is not `(` the identifier is
emitted as a variable and the peeked token is dropped (the source has no
unget — "next token resumes"). -/
def emitLoop : ℕ → List Char → List String → List ℕ → Token → List RPNNode →
    Except String (List RPNNode)
  | 0, _, _, _, _, _ => .error "fuel exhausted"
  | fuel + 1, input, opstack, argstack, prev, out =>
    let (t, input1) := lexNext input
    match t.kind with
    | .endTok => drainOps opstack out
    | .num => emitLoop fuel input1 opstack argstack t (out ++ [.num t.numv])
    | .id =>
      let (t2, input2) := lexNext input1
      if t2.kind = .lparen then
        emitLoop fuel input2 ("(" :: t.text :: opstack) (0 :: argstack) lparenToken out
      else
        emitLoop fuel input2 opstack argstack t (out ++ [.var t.text])
    | .lparen => emitLoop fuel input1 ("(" :: opstack) argstack t out
    | .comma =>
      let (stack2, out2) := unwindToParen opstack out
      match argstack with
      | [] => .error "Unexpected comma"
      | n :: ns => emitLoop fuel input1 stack2 ((n + 1) :: ns) t out2
    | .rparen =>
      let (stack2, out2) := unwindToParen opstack out
      match stack2 with
      | [] => .error "Mismatched rparen"
      | _ :: stack3 =>
        match stack3 with
        | fn :: stack4 =>
          if isFnName fn then
            match argstack with
            | [] => emitLoop fuel input1 stack4 [] t (out2 ++ [.op fn 0])
            | n :: ns => emitLoop fuel input1 stack4 ns t (out2 ++ [.op fn (n + 1)])
          else emitLoop fuel input1 stack3 argstack t out2
        | [] => emitLoop fuel input1 [] argstack t out2
    | .op =>
      let sym :=
        if t.text = "-" && (prev.kind = .endTok || prev.kind = .op
            || prev.kind = .lparen || prev.kind = .comma) then "neg"
        else t.text
      let (stack2, out2) := popWhileOps sym opstack out
      emitLoop fuel input1 (sym :: stack2) argstack t out2

/-- `emitRPN(expr)`: run the loop with ample fuel (each iteration that
recurses consumes at least one input character). -/
def emitRPN (expr : List Char) : Except String (List RPNNode) :=
  emitLoop (expr.length + 1) expr [] [] endToken []

/-- `std::pow` restricted to integral rational exponents (the claims never
exercise `^`; a non-integral exponent falls outside this rational model
and is mapped to 0). -/
def qpow (a b : ℚ) : ℚ :=
  if b.den = 1 then
    if 0 ≤ b.num then a ^ b.num.toNat else (a ^ (-b.num).toNat)⁻¹
  else 0

/-- `evalRPN`'s interpreter loop over the node list, with the value stack
growing at the head (the vector's end).  The environment holds the numeric
members of the env JSON object. -/
def evalSteps : List RPNNode → List (String × ℚ) → List ℚ → Except String ℚ
  | [], _, st =>
    match st with
    | [v] => .ok v
    | _ => .error "Invalid expression"
  | n :: rest, env, st =>
    match n with
    | .num v => evalSteps rest env (v :: st)
    | .var name =>
      match env.lookup name with
      | none => .error ("Unknown variable: " ++ name)
      | some v => evalSteps rest env (v :: st)
    | .op sym _ =>
      if sym = "neg" then
        match st with
        | [] => .error "neg: stack underflow"
        | a :: st2 => evalSteps rest env (-a :: st2)
      else if sym = "+" || sym = "-" || sym = "*" || sym = "/" || sym = "^" then
        match st with
        | b :: a :: st2 =>
          if sym = "+" then evalSteps rest env ((a + b) :: st2)
          else if sym = "-" then evalSteps rest env ((a - b) :: st2)
          else if sym = "*" then evalSteps rest env ((a * b) :: st2)
          else if sym = "/" then evalSteps rest env ((if b = 0 then 0 else a / b) :: st2)
          else evalSteps rest env (qpow a b :: st2)
        | _ => .error "operator: stack underflow"
      else if sym = "abs" then
        match st with
        | [] => .error "abs: stack underflow"
        | a :: st2 => evalSteps rest env (|a| :: st2)
      else if sym = "min" || sym = "max" then
        match st with
        | b :: a :: st2 =>
          evalSteps rest env ((if sym = "min" then min a b else max a b) :: st2)
        | _ => .error "min/max: argc lt 2"
      else if sym = "clamp" then
        match st with
        | hi :: lo :: x :: st2 => evalSteps rest env (max lo (min hi x) :: st2)
        | _ => .error "clamp: argc lt 3"
      else .error ("Unknown function/op: " ++ sym)

/-- `evalRPN(rpn, env)`. -/
def evalRPN (code : List RPNNode) (env : List (String × ℚ)) : Except String ℚ :=
  evalSteps code env []

/-- `TGDKLoader::ResolveEquation`. -/
def ResolveEquation (expr : List Char) (env : List (String × ℚ)) : Except String ℚ :=
  match emitRPN expr with
  | .error e => .error e
  | .ok rpn => evalRPN rpn env

/-- One `compound.entities[]` member: name, equation text, and the numeric
entries of its optional `env` object. -/
structure CompoundEntity : Type where
  name : String
  equation : List Char
  env : List (String × ℚ)
  deriving Repr, DecidableEq

/-- The entity loop of `CompoundLoader::Configure`: evaluation environment
= base/chained values overridden by the entity's own env; a successful
entity is staged and added to the chain under its name; a failed one is
logged and skipped.  Association lists resolve at the first hit, so the
entity env (prepended) overrides the chain, and later stagings of a name
shadow earlier ones. -/
def compoundConfigureLoop :
    List CompoundEntity → List (String × ℚ) → List (String × ℚ) → List (String × ℚ)
  | [], _, staged => staged
  | e :: rest, envChain, staged =>
    match ResolveEquation e.equation (e.env ++ envChain) with
    | .ok v => compoundConfigureLoop rest ((e.name, v) :: envChain) ((e.name, v) :: staged)
    | .error _ => compoundConfigureLoop rest envChain staged

/-- `Configure` + `Apply` + `Get`: the value (if any) the compound service
exposes for `name` after loading `entities` over the numeric base env. -/
def CompoundGet (baseEnv : List (String × ℚ)) (entities : List CompoundEntity)
    (name : String) : Option ℚ :=
  (compoundConfigureLoop entities baseEnv []).lookup name

end MirrorBlade

namespace MirrorBlade

/-- Spec-side clamp: `clamp(v, 0.10, 50.0)` as written in the spec. -/
def specClamp (v : ℚ) : ℚ := max (1/10) (min 50 v)

theorem clampTraffic_eq_specClamp (v : ℚ) : ClampTraffic v = specClamp v := by
  unfold ClampTraffic specClamp
  rcases lt_or_le v (1/10) with h | h
  · rw [if_pos h]
    have h50 : min 50 v = v := min_eq_right (by linarith)
    rw [h50, max_eq_left (le_of_lt h)]
  · rw [if_neg (not_lt.mpr h)]
    rcases lt_or_le 50 v with h2 | h2
    · rw [if_pos h2, min_eq_left (le_of_lt h2), max_eq_right (by norm_num)]
    · rw [if_neg (not_lt.mpr h2), min_eq_right h2, max_eq_right h]

/-- C1: dispatching `traffic.mul` with a numeric `mult` argument replies
`ok=true` with `result = clamp(mult, 0.10, 50.0)`; in particular
`mult = 100` yields `50` and `mult = 0` yields `1/10`. -/
theorem traffic_mul_clamps (mult : ℚ) (st : MBOpsState) :
    (OpsDispatch st "traffic.mul" (.obj [("mult", .num mult)])).2
      = .obj [("ok", .jbool true), ("result", .num (specClamp mult))]
    ∧ specClamp 100 = 50 ∧ specClamp 0 = 1/10 := by
  refine ⟨?_, by norm_num [specClamp], by norm_num [specClamp]⟩
  show (OpsDispatch st "traffic.mul" (.obj [("mult", .num mult)])).2 = _
  rw [← clampTraffic_eq_specClamp]
  rfl

/-- C4: dispatching `ping` with empty arguments replies with a success
envelope whose `result` is the string `"pong"`. -/
theorem ping_returns_pong (st : MBOpsState) :
    OpsDispatch st "ping" (.obj [])
      = (st, .obj [("ok", .jbool true), ("result", .str "pong")]) := rfl

theorem readLineAux_replicate_ok (n : ℕ) (c : Char) (rest buf : List Char)
    (hc : c ≠ '\n') (hlen : buf.length + n ≤ 1000000) :
    readLineAux (List.replicate n c ++ '\n' :: rest) buf
      = some (buf ++ List.replicate n c, rest) := by
  induction n generalizing buf with
  | zero => simp [readLineAux]
  | succ m ih =>
    rw [List.replicate_succ]
    show readLineAux (c :: (List.replicate m c ++ '\n' :: rest)) buf = _
    rw [readLineAux]
    rw [if_neg hc, if_neg (by simp; omega)]
    rw [ih (buf ++ [c]) (by simp; omega)]
    simp

theorem readLineAux_replicate_overflow (n : ℕ) (c : Char) (input buf : List Char)
    (hc : c ≠ '\n') (hbuf : buf.length ≤ 1000000) (hlen : 1000000 < buf.length + n) :
    readLineAux (List.replicate n c ++ input) buf = none := by
  induction n generalizing buf with
  | zero => omega
  | succ m ih =>
    rw [List.replicate_succ]
    show readLineAux (c :: (List.replicate m c ++ input)) buf = none
    rw [readLineAux, if_neg hc]
    by_cases h : (buf ++ [c]).length > 1000000
    · rw [if_pos h]
    · rw [if_neg h]
      exact ih (buf ++ [c]) (by simp at h ⊢; omega) (by simp; omega)

/-- C2 counterexample: a request line of exactly 1,048,576 bytes followed by
a line-feed is not accepted — the session is torn down (the buffer guard in
the code is 1,000,000 bytes, not 1 MiB). -/
theorem readLine_1MiB_rejected :
    ReadLine (List.replicate 1048576 'a' ++ '\n' :: []) = none := by
  unfold ReadLine
  exact readLineAux_replicate_overflow 1048576 'a' ('\n' :: []) []
    (by decide) (by simp) (by simp)

/-- C2 (amended): a request line is accepted while its accumulated length
without a terminator is at most 1,000,000 bytes; reaching 1,000,001
accumulated bytes without a terminator tears the session down with no
reply for the line. -/
theorem readLine_guard_1e6 (n : ℕ) (c : Char) (rest : List Char) (hc : c ≠ '\n') :
    (n ≤ 1000000 →
      ReadLine (List.replicate n c ++ '\n' :: rest) = some (List.replicate n c, rest))
    ∧ (1000000 < n → ∀ input, ReadLine (List.replicate n c ++ input) = none) := by
  constructor
  · intro hn
    unfold ReadLine
    rw [readLineAux_replicate_ok n c rest [] hc (by simpa using hn)]
    simp
  · intro hn input
    unfold ReadLine
    exact readLineAux_replicate_overflow n c input [] hc (by simp) (by simpa using hn)

/-- Witness for the amended C2 theorem at a concrete short line. -/
theorem readLine_guard_1e6_witness :
    ReadLine (List.replicate 3 'a' ++ '\n' :: []) = some (List.replicate 3 'a', []) :=
  (readLine_guard_1e6 3 'a' [] (by decide)).1 (by norm_num)

/-- C9: for every `dt ≥ 0`, every input and every internal state: with
`enabled = false` the smoother passes the input through, and with
`enabled = true` and `abide_emptiness = true` the output is 0 and the
stored velocity is 0. -/
theorem recovery_step_passthrough_emptiness
    (p : RIParams) (s : RIState) (dt x : ℚ) (hdt : 0 ≤ dt) :
    (p.enabled = false → (RecoveryStep p s dt x).2 = x)
    ∧ (p.enabled = true → p.abideEmptiness = true →
        (RecoveryStep p s dt x).2 = 0 ∧ (RecoveryStep p s dt x).1.v = 0) := by
  constructor
  · intro h
    simp [RecoveryStep, h]
  · intro h1 h2
    simp [RecoveryStep, h1, h2]

/-- Witness for C9 at `dt = 1`, `x = 7`. -/
theorem recovery_step_witness :
    (RecoveryStep { enabled := false } {} 1 7).2 = 7
    ∧ (RecoveryStep { abideEmptiness := true } {} 1 7).2 = 0 :=
  ⟨(recovery_step_passthrough_emptiness { enabled := false } {} 1 7 (by norm_num)).1 rfl,
   ((recovery_step_passthrough_emptiness { abideEmptiness := true } {} 1 7
      (by norm_num)).2 rfl rfl).1⟩

theorem telemRun_concat (st : TelemetryState) (ops : List TelemOp) (op : TelemOp) :
    telemRun st (ops ++ [op]) = telemApply (telemRun st ops) op := by
  simp [telemRun]

/-- C10: pushes while opt-in is false (the default initial state) leave the
event ring unchanged, and every event visible in a snapshot after any call
sequence stems from a `Push` executed at a moment when opt-in was true. -/
theorem telem_push_gated :
    TelemetryState.init.optIn = false
    ∧ (∀ st e, st.optIn = false → TelemetryPush st e = st)
    ∧ (∀ ops mx e, e ∈ TelemetrySnapshot (telemRun TelemetryState.init ops) mx →
        ∃ pre post, ops = pre ++ TelemOp.push e :: post
          ∧ (telemRun TelemetryState.init pre).optIn = true) := by
  refine ⟨rfl, ?_, ?_⟩
  · intro st e h
    simp [TelemetryPush, h]
  · intro ops mx e he
    have hev : e ∈ (telemRun TelemetryState.init ops).events :=
      List.mem_of_mem_drop he
    clear he
    induction ops using List.reverseRecOn with
    | nil =>
      simp [telemRun, TelemetryState.init] at hev
    | append_singleton ops op ih =>
      rw [telemRun_concat] at hev
      cases op with
      | optIn b =>
        have hev2 : e ∈ (telemRun TelemetryState.init ops).events := by
          simpa [telemApply, TelemetryOptIn] using hev
        obtain ⟨pre, post, h1, h2⟩ := ih hev2
        exact ⟨pre, post ++ [.optIn b], by rw [h1]; simp, h2⟩
      | push e2 =>
        by_cases hopt : (telemRun TelemetryState.init ops).optIn
        · have hev2 : e ∈ (telemRun TelemetryState.init ops).events ++ [e2] := by
            rw [telemApply, TelemetryPush, if_neg (by simp [hopt])] at hev
            by_cases hlim :
                ((telemRun TelemetryState.init ops).events ++ [e2]).length
                  > (telemRun TelemetryState.init ops).limit
            · rw [if_pos hlim] at hev
              exact List.mem_of_mem_tail hev
            · rw [if_neg hlim] at hev
              exact hev
          rcases List.mem_append.mp hev2 with h | h
          · obtain ⟨pre, post, h1, h2⟩ := ih h
            exact ⟨pre, post ++ [.push e2], by rw [h1]; simp, h2⟩
          · have : e = e2 := by simpa using h
            exact ⟨ops, [], by rw [this], hopt⟩
        · have hev2 : e ∈ (telemRun TelemetryState.init ops).events := by
            rw [telemApply, TelemetryPush, if_pos (by simp [hopt])] at hev
            exact hev
          obtain ⟨pre, post, h1, h2⟩ := ih hev2
          exact ⟨pre, post ++ [.push e2], by rw [h1]; simp, h2⟩

/-- C8 counterexample: at `t = 0, ax = 1, ay = 1, nx = 1, ny = 0,
phase = π/2` the handler returns `x = sin 0 = 0` while the spec formula
`ax·sin(nx·2πt+phase)` demands `x = sin(π/2) = 1`. -/
theorem lissajous12_claim_false :
    figure8EvalLissajous12 0 1 1 1 0 (Real.pi / 2)
      ≠ lissajousSpec 0 1 1 1 0 (Real.pi / 2) := by
  unfold figure8EvalLissajous12 EvalLissajous12 lissajousSpec
  intro h
  have hx := congrArg Prod.fst h
  simp only [mul_zero, zero_mul, zero_add, add_zero, one_mul,
    Real.sin_zero, Real.sin_pi_div_two] at hx
  exact absurd hx (by norm_num)

/-- C8 (amended): `figure8.evalLissajous12` returns
`x = ax·sin(nx·t + ny)` and `y = ay·sin(2·nx·t + phase)`: `nx` is the one
frequency parameter (the y frequency is fixed at twice it), `ny` lands on
the x phase and `phase` on the y phase, and no 2π scaling is applied. -/
theorem lissajous12_actual (t ax ay nx ny phase : ℝ) :
    figure8EvalLissajous12 t ax ay nx ny phase
      = (ax * Real.sin (nx * t + ny), ay * Real.sin (2 * nx * t + phase)) := rfl

theorem parseLogLevel_logLevelName (l : CfgLogLevel) :
    ParseLogLevel (logLevelName l) = l := by
  cases l <;> rfl

theorem clampf_eq_self (v lo hi : ℚ) (h1 : lo ≤ v) (h2 : v ≤ hi) :
    clampf v lo hi = v := by
  unfold clampf
  rw [if_neg (not_lt.mpr h1), if_neg (not_lt.mpr h2)]

/-- C6 counterexample: the legal config whose pipe name holds the single
16-bit code unit 960 does not round-trip: `ToJSON` narrows it to the byte
192 and `LoadFromFile` widens that back to 65472. -/
theorem config_roundtrip_claim_false :
    LegalConfig { upscaler := false, traffic := 1, ipcEnabled := true,
                  ipcPipeName := [960], logLevel := .info }
    ∧ ConfigLoad (ConfigToJSON { upscaler := false, traffic := 1, ipcEnabled := true,
                                 ipcPipeName := [960], logLevel := .info })
      ≠ { upscaler := false, traffic := 1, ipcEnabled := true,
          ipcPipeName := [960], logLevel := .info } := by
  constructor
  · exact ⟨by norm_num, by norm_num, by intro u hu; simp at hu; omega⟩
  · intro h
    have hpn := congrArg Config.ipcPipeName h
    simp [ConfigLoad, ConfigToJSON, narrowChar, widenChar] at hpn

/-- C6 (amended): `parse(serialize(C)) = C` holds for every legal config
whose ipc pipe name consists of 7-bit (ASCII) code units; in general the
serializer narrows each wide character of the pipe name to one byte,
which the loader cannot undo. -/
theorem config_roundtrip_legal_ascii (c : Config) (h : LegalConfig c)
    (hascii : ∀ u ∈ c.ipcPipeName, u < 128) :
    ConfigLoad (ConfigToJSON c) = c := by
  obtain ⟨h1, h2, -⟩ := h
  cases c with
  | mk up tr ipc pn lvl =>
    have hmap : (pn.map narrowChar).map widenChar = pn := by
      rw [List.map_map]
      have hid : ∀ u ∈ pn, (widenChar ∘ narrowChar) u = u := by
        intro u hu
        have hu128 : u < 128 := hascii u hu
        show widenChar (narrowChar u) = u
        unfold narrowChar widenChar
        rw [Nat.mod_eq_of_lt (by omega), if_pos hu128]
      calc pn.map (widenChar ∘ narrowChar) = pn.map id := List.map_congr_left hid
        _ = pn := List.map_id pn
    show Config.mk up (clampf tr (1/10) 50) ipc ((pn.map narrowChar).map widenChar)
        (ParseLogLevel (logLevelName lvl)) = Config.mk up tr ipc pn lvl
    rw [hmap, clampf_eq_self tr _ _ h1 h2, parseLogLevel_logLevelName]

/-- Witness for C10: a push on the freshly initialized (opted-out) state is
dropped. -/
theorem telem_push_gated_witness :
    TelemetryPush { optIn := false, events := [], limit := 512 }
        { t := 0, name := "boot", a := 0, b := 0, c := 0, tag := "" }
      = { optIn := false, events := [], limit := 512 } :=
  telem_push_gated.2.1 _ _ rfl

/-! ### Glob lemmas -/

theorem gmatch_nil_pat (ts : List Char) : gmatch [] ts = ts.isEmpty := by
  simp [gmatch]

theorem gmatch_star_nil (ρ : List Char) : gmatch ('*' :: ρ) [] = gmatch ρ [] := by
  simp [gmatch]

theorem gmatch_star_cons (ρ : List Char) (t : Char) (ts : List Char) :
    gmatch ('*' :: ρ) (t :: ts) = (gmatch ρ (t :: ts) || gmatch ('*' :: ρ) ts) := by
  conv_lhs => rw [gmatch]
  simp

theorem gmatch_lit_nil {p : Char} (ρ : List Char) (hp : p ≠ '*') :
    gmatch (p :: ρ) [] = false := by
  simp [gmatch, hp]

theorem gmatch_lit_cons {p : Char} (ρ : List Char) (t : Char) (ts : List Char)
    (hp : p ≠ '*') :
    gmatch (p :: ρ) (t :: ts) = (charMatch t p && gmatch ρ ts) := by
  conv_lhs => rw [gmatch]
  simp [hp]

theorem gmatch_nil_text (ρ : List Char) : gmatch ρ [] = ρ.all (fun c => c = '*') := by
  induction ρ with
  | nil => simp [gmatch]
  | cons p ps ih =>
    by_cases hp : p = '*'
    · subst hp
      rw [gmatch_star_nil, ih]
      simp
    · rw [gmatch_lit_nil ps hp]
      simp [hp]

theorem gmatch_star_of (ρ X : List Char) (h : gmatch ρ X = true) :
    gmatch ('*' :: ρ) X = true := by
  cases X with
  | nil => rw [gmatch_star_nil]; exact h
  | cons t ts => rw [gmatch_star_cons, Bool.or_eq_true]; exact Or.inl h

theorem gmatch_star_iff (ρ ts : List Char) :
    gmatch ('*' :: ρ) ts = true ↔ ∃ k, k ≤ ts.length ∧ gmatch ρ (ts.drop k) = true := by
  induction ts with
  | nil =>
    rw [gmatch_star_nil]
    constructor
    · intro h; exact ⟨0, Nat.le_refl 0, h⟩
    · rintro ⟨k, hk, h⟩
      have hk0 : k = 0 := Nat.le_zero.mp hk
      subst hk0
      simpa using h
  | cons t ts ih =>
    rw [gmatch_star_cons, Bool.or_eq_true]
    constructor
    · rintro (h | h)
      · exact ⟨0, Nat.zero_le _, h⟩
      · obtain ⟨k, hk, h2⟩ := ih.mp h
        exact ⟨k + 1, Nat.succ_le_succ hk, by simpa using h2⟩
    · rintro ⟨k, hk, h⟩
      cases k with
      | zero => exact Or.inl (by simpa using h)
      | succ k2 =>
        exact Or.inr (ih.mpr ⟨k2, Nat.le_of_succ_le_succ hk, by simpa using h⟩)

theorem gmatch_star_mono (ρ ys xs : List Char) (hsuf : ys <:+ xs)
    (h : gmatch ('*' :: ρ) ys = true) : gmatch ('*' :: ρ) xs = true := by
  obtain ⟨zs, rfl⟩ := hsuf
  induction zs with
  | nil => simpa using h
  | cons z zs ih =>
    rw [List.cons_append, gmatch_star_cons, Bool.or_eq_true]
    exact Or.inr ih

theorem charMatch_star_right {t : Char} (h : charMatch t '*' = true) : t = '*' := by
  simp only [charMatch, Bool.or_eq_true, decide_eq_true_eq] at h
  rcases h with h | h
  · exact absurd h (by decide)
  · exact h

theorem forall2_charMatch_starFree {tseg pseg : List Char}
    (hmm : List.Forall₂ (fun t p => charMatch t p = true) tseg pseg) :
    (∀ t ∈ tseg, t ≠ '*') → ∀ p ∈ pseg, p ≠ '*' := by
  induction hmm with
  | nil => intro _ p hp; exact absurd hp (List.not_mem_nil p)
  | @cons t p ts2 ps2 hab _ ih =>
    intro hT q hq
    rcases List.mem_cons.mp hq with rfl | hq2
    · intro hq'
      subst hq'
      exact hT t (List.mem_cons_self t ts2) (charMatch_star_right hab)
    · exact ih (fun c hc => hT c (List.mem_cons_of_mem _ hc)) q hq2

theorem gmatch_seg_peel (tseg pseg ρ X : List Char)
    (hmm : List.Forall₂ (fun t p => charMatch t p = true) tseg pseg) :
    (∀ p ∈ pseg, p ≠ '*') → gmatch (pseg ++ ρ) (tseg ++ X) = gmatch ρ X := by
  induction hmm with
  | nil => intro _; simp
  | @cons t p ts2 ps2 hab _ ih =>
    intro hfree
    have hp : p ≠ '*' := hfree p (List.mem_cons_self p ps2)
    rw [List.cons_append, List.cons_append, gmatch_lit_cons _ _ _ hp, hab, Bool.true_and]
    exact ih (fun q hq => hfree q (List.mem_cons_of_mem _ hq))

theorem gmatch_seg_consume (pseg : List Char) :
    ∀ (ρ Y : List Char), (∀ p ∈ pseg, p ≠ '*') →
      gmatch (pseg ++ ρ) Y = true → gmatch ρ (Y.drop pseg.length) = true := by
  induction pseg with
  | nil => intro ρ Y _ h; simpa using h
  | cons p pseg2 ih =>
    intro ρ Y hfree h
    have hp : p ≠ '*' := hfree p (List.mem_cons_self p pseg2)
    cases Y with
    | nil =>
      rw [List.cons_append, gmatch_lit_nil _ hp] at h
      exact absurd h (by simp)
    | cons t Y2 =>
      rw [List.cons_append, gmatch_lit_cons _ _ _ hp, Bool.and_eq_true] at h
      have h2 := ih ρ Y2 (fun q hq => hfree q (List.mem_cons_of_mem _ hq)) h.2
      simpa using h2

theorem dropConsChar {l : List Char} {j : ℕ} (h : j < l.length) :
    l.drop j = l.getD j ' ' :: l.drop (j + 1) := by
  rw [List.getD_eq_getElem l ' ' h]
  exact List.drop_eq_getElem_cons h

theorem getD_mem_of_lt {l : List Char} {j : ℕ} (h : j < l.length) :
    l.getD j ' ' ∈ l := by
  rw [List.getD_eq_getElem l ' ' h]
  exact List.getElem_mem h

theorem gmatch_dead_end (T P : List Char) (ti pi : ℕ)
    (hti : ti < T.length) (hpi : pi ≤ P.length)
    (h1 : ¬(pi < P.length ∧ charMatch (T.getD ti ' ') (P.getD pi ' ') = true))
    (h2 : ¬(pi < P.length ∧ P.getD pi ' ' = '*')) :
    gmatch (P.drop pi) (T.drop ti) = false := by
  have hTd : T.drop ti = T.getD ti ' ' :: T.drop (ti + 1) := dropConsChar hti
  rcases Nat.lt_or_ge pi P.length with hlt | hge
  · have hPd : P.drop pi = P.getD pi ' ' :: P.drop (pi + 1) := dropConsChar hlt
    have hstar2 : P.getD pi ' ' ≠ '*' := fun hh => h2 ⟨hlt, hh⟩
    have hcm : charMatch (T.getD ti ' ') (P.getD pi ' ') = false := by
      rcases Bool.eq_false_or_eq_true (charMatch (T.getD ti ' ') (P.getD pi ' '))
        with hct | hcf
      · exact absurd ⟨hlt, hct⟩ h1
      · exact hcf
    rw [hPd, hTd, gmatch_lit_cons _ _ _ hstar2, hcm, Bool.false_and]
  · have hnil : P.drop pi = [] := List.drop_eq_nil_of_le hge
    rw [hnil, gmatch_nil_pat, hTd]
    simp

theorem skipStars_spec (P : List Char) :
    ∀ n pi, P.length - pi ≤ n → pi ≤ P.length →
      ((skipStars P pi = P.length) ↔ (P.drop pi).all (fun c => c = '*') = true) := by
  intro n
  induction n with
  | zero =>
    intro pi h1 h2
    have hpi : pi = P.length := by omega
    rw [skipStars, dif_neg (by omega)]
    subst hpi
    simp [List.drop_length]
  | succ m ih =>
    intro pi h1 h2
    rw [skipStars]
    by_cases hc : pi < P.length ∧ P.getD pi ' ' = '*'
    · rw [dif_pos hc]
      have hd : P.drop pi = '*' :: P.drop (pi + 1) := by
        rw [dropConsChar hc.1, hc.2]
      rw [ih (pi + 1) (by omega) (by omega), hd]
      simp
    · rw [dif_neg hc]
      rcases Nat.lt_or_ge pi P.length with hlt | hge
      · have hne : P.getD pi ' ' ≠ '*' := fun hh => hc ⟨hlt, hh⟩
        have hd : P.drop pi = P.getD pi ' ' :: P.drop (pi + 1) := dropConsChar hlt
        constructor
        · intro hcon; omega
        · intro hall
          rw [hd, List.all_cons, Bool.and_eq_true, decide_eq_true_eq] at hall
          exact absurd hall.1 hne
      · have hpi : pi = P.length := by omega
        subst hpi
        simp [List.drop_length]

theorem bool_eq_of_iff {a b : Bool} (h : a = true ↔ b = true) : a = b := by
  cases a <;> cases b <;> simp_all

/-- The while loop of `MatchLike` computes the declarative glob semantics,
for texts that do not contain a literal `*`.  Proof by induction on the
fuel, maintaining `InvNone`/`InvSome` across the four branches. -/
theorem matchLoop_eq_gmatch (T P : List Char) (hT : ∀ c ∈ T, c ≠ '*') :
    ∀ (fuel ti pi : ℕ) (star : Option ℕ) (mark : ℕ),
      (match star with
       | none => InvNone T P ti pi mark
       | some s => InvSome T P ti pi s mark) →
      loopMeasure T P ti pi mark < fuel →
      matchLoop T P fuel ti pi star mark = gmatch P T := by
  intro fuel
  induction fuel with
  | zero => intro ti pi star mark _ hfuel; omega
  | succ fuel ih =>
    intro ti pi star mark hinv hfuel
    cases star with
    | none =>
      obtain ⟨hmk, htiL, hpiL, heq⟩ := hinv
      simp only [matchLoop]
      by_cases hti : ti < T.length
      · rw [if_pos hti]
        have htcs : T.getD ti ' ' ≠ '*' := hT _ (getD_mem_of_lt hti)
        by_cases hc1 : pi < P.length ∧ charMatch (T.getD ti ' ') (P.getD pi ' ') = true
        · rw [if_pos hc1]
          obtain ⟨hpiLt, hcm⟩ := hc1
          have hpc : P.getD pi ' ' ≠ '*' := by
            intro hh
            rw [hh] at hcm
            exact htcs (charMatch_star_right hcm)
          have hone : gmatch (P.drop pi) (T.drop ti)
              = gmatch (P.drop (pi + 1)) (T.drop (ti + 1)) := by
            rw [dropConsChar hpiLt, dropConsChar hti, gmatch_lit_cons _ _ _ hpc, hcm,
              Bool.true_and]
          refine ih (ti + 1) (pi + 1) none mark
            ⟨by omega, by omega, by omega, by rw [heq, hone]⟩ ?_
          unfold loopMeasure at hfuel ⊢
          omega
        · rw [if_neg hc1]
          by_cases hc2 : pi < P.length ∧ P.getD pi ' ' = '*'
          · rw [if_pos hc2]
            obtain ⟨hpiLt, hps⟩ := hc2
            have hdp : P.drop pi = '*' :: P.drop (pi + 1) := by
              rw [dropConsChar hpiLt, hps]
            refine ih ti (pi + 1) (some pi) ti
              ⟨hpiLt, hps, Nat.le_refl ti, htiL, Nat.le_refl (pi + 1), by omega,
               by rw [heq, hdp], [], [], by simp, by simp, List.Forall₂.nil⟩ ?_
            have hKle : (T.length - ti) * (T.length + P.length + 2)
                ≤ (T.length - mark) * (T.length + P.length + 2) :=
              Nat.mul_le_mul_right _ (by omega)
            unfold loopMeasure at hfuel ⊢
            omega
          · rw [if_neg hc2]
            show false = gmatch P T
            rw [heq, gmatch_dead_end T P ti pi hti hpiL hc1 hc2]
      · rw [if_neg hti]
        have hdropT : T.drop ti = [] := by
          have : ti = T.length := by omega
          rw [this, List.drop_length]
        rw [heq, hdropT, gmatch_nil_text]
        rcases Bool.eq_false_or_eq_true ((P.drop pi).all fun c => c = '*') with hall | hall
        · rw [hall]
          have hss : skipStars P pi = P.length :=
            (skipStars_spec P (P.length - pi) pi (Nat.le_refl _) hpiL).mpr hall
          simp [hss]
        · rw [hall]
          have hss : ¬(skipStars P pi = P.length) := fun hcon => by
            have h2 := (skipStars_spec P (P.length - pi) pi (Nat.le_refl _) hpiL).mp hcon
            rw [h2] at hall
            cases hall
          simp [hss]
    | some s =>
      obtain ⟨hs, hstar, hmk, htiL, hs1, hpiL, hanchor, tseg, pseg, hTseg, hPseg, hmm⟩ := hinv
      have htsegT : ∀ t ∈ tseg, t ≠ '*' := by
        intro t ht
        apply hT
        have h2 : t ∈ T.drop mark := by
          rw [hTseg]
          exact List.mem_append.mpr (Or.inl ht)
        exact List.drop_subset mark T h2
      have hfree : ∀ p ∈ pseg, p ≠ '*' := forall2_charMatch_starFree hmm htsegT
      have hlenT : tseg.length = ti - mark := by
        have h1 := congrArg List.length hTseg
        rw [List.length_drop, List.length_append, List.length_drop] at h1
        omega
      have hlenEq : pseg.length = tseg.length := (List.Forall₂.length_eq hmm).symm
      simp only [matchLoop]
      by_cases hti : ti < T.length
      · rw [if_pos hti]
        have htcs : T.getD ti ' ' ≠ '*' := hT _ (getD_mem_of_lt hti)
        by_cases hc1 : pi < P.length ∧ charMatch (T.getD ti ' ') (P.getD pi ' ') = true
        · rw [if_pos hc1]
          obtain ⟨hpiLt, hcm⟩ := hc1
          refine ih (ti + 1) (pi + 1) (some s) mark
            ⟨hs, hstar, by omega, by omega, by omega, by omega, hanchor,
             tseg ++ [T.getD ti ' '], pseg ++ [P.getD pi ' '], ?_, ?_, ?_⟩ ?_
          · calc T.drop mark = tseg ++ T.drop ti := hTseg
              _ = tseg ++ (T.getD ti ' ' :: T.drop (ti + 1)) := by rw [dropConsChar hti]
              _ = (tseg ++ [T.getD ti ' ']) ++ T.drop (ti + 1) := by simp
          · calc P.drop (s + 1) = pseg ++ P.drop pi := hPseg
              _ = pseg ++ (P.getD pi ' ' :: P.drop (pi + 1)) := by rw [dropConsChar hpiLt]
              _ = (pseg ++ [P.getD pi ' ']) ++ P.drop (pi + 1) := by simp
          · exact List.rel_append hmm (List.Forall₂.cons hcm List.Forall₂.nil)
          · unfold loopMeasure at hfuel ⊢
            omega
        · rw [if_neg hc1]
          by_cases hc2 : pi < P.length ∧ P.getD pi ' ' = '*'
          · rw [if_pos hc2]
            obtain ⟨hpiLt, hps⟩ := hc2
            have hdp : P.drop pi = '*' :: P.drop (pi + 1) := by
              rw [dropConsChar hpiLt, hps]
            have hshift : gmatch ('*' :: P.drop (s + 1)) (T.drop mark)
                = gmatch ('*' :: P.drop (pi + 1)) (T.drop ti) := by
              apply bool_eq_of_iff
              constructor
              · intro hL
                obtain ⟨k, hk, hgk⟩ := (gmatch_star_iff _ _).mp hL
                rw [hPseg] at hgk
                have hcons := gmatch_seg_consume pseg (P.drop pi) _ hfree hgk
                have htext : ((T.drop mark).drop k).drop pseg.length
                    = (T.drop ti).drop k := by
                  rw [List.drop_drop, List.drop_drop, List.drop_drop]
                  congr 1
                  omega
                rw [htext, hdp] at hcons
                exact gmatch_star_mono _ _ _ (List.drop_suffix k (T.drop ti)) hcons
              · intro hR
                apply gmatch_star_of
                rw [hPseg, hTseg, gmatch_seg_peel _ _ _ _ hmm hfree, hdp]
                exact hR
            refine ih ti (pi + 1) (some pi) ti
              ⟨hpiLt, hps, Nat.le_refl ti, htiL, Nat.le_refl (pi + 1), by omega,
               by rw [hanchor, hshift], [], [], by simp, by simp, List.Forall₂.nil⟩ ?_
            have hKle : (T.length - ti) * (T.length + P.length + 2)
                ≤ (T.length - mark) * (T.length + P.length + 2) :=
              Nat.mul_le_mul_right _ (by omega)
            unfold loopMeasure at hfuel ⊢
            omega
          · rw [if_neg hc2]
            have hdm : T.drop mark = T.getD mark ' ' :: T.drop (mark + 1) :=
              dropConsChar (by omega)
            have hfirst : gmatch (P.drop (s + 1)) (T.drop mark) = false := by
              rw [hPseg, hTseg, gmatch_seg_peel _ _ _ _ hmm hfree]
              exact gmatch_dead_end T P ti pi hti hpiL hc1 hc2
            have hanchor2 : gmatch P T
                = gmatch ('*' :: P.drop (s + 1)) (T.drop (mark + 1)) := by
              rw [hanchor]
              conv_lhs => rw [hdm, gmatch_star_cons]
              rw [← hdm, hfirst, Bool.false_or]
            refine ih (mark + 1) (s + 1) (some s) (mark + 1)
              ⟨hs, hstar, Nat.le_refl _, by omega, Nat.le_refl _, by omega, hanchor2,
               [], [], by simp, by simp, List.Forall₂.nil⟩ ?_
            have hKstep : (T.length - (mark + 1)) * (T.length + P.length + 2)
                + (T.length + P.length + 2)
                = (T.length - mark) * (T.length + P.length + 2) := by
              have hm : T.length - mark = (T.length - (mark + 1)) + 1 := by omega
              rw [hm, Nat.add_mul, one_mul]
            unfold loopMeasure at hfuel ⊢
            omega
      · rw [if_neg hti]
        have hdropT : T.drop ti = [] := by
          have : ti = T.length := by omega
          rw [this, List.drop_length]
        have htm : T.drop mark = tseg := by rw [hTseg, hdropT, List.append_nil]
        have hmain : gmatch P T = (P.drop pi).all (fun c => c = '*') := by
          apply bool_eq_of_iff
          constructor
          · intro hg
            rw [hanchor] at hg
            obtain ⟨k, hk, hgk⟩ := (gmatch_star_iff _ _).mp hg
            rw [hPseg] at hgk
            have hcons := gmatch_seg_consume pseg (P.drop pi) _ hfree hgk
            have hnil : ((T.drop mark).drop k).drop pseg.length = [] := by
              apply List.drop_eq_nil_of_le
              rw [htm, List.length_drop]
              omega
            rw [hnil, gmatch_nil_text] at hcons
            exact hcons
          · intro hall
            rw [hanchor]
            apply gmatch_star_of
            have hsplit : T.drop mark = tseg ++ ([] : List Char) := by
              rw [htm, List.append_nil]
            rw [hsplit, hPseg, gmatch_seg_peel _ _ _ _ hmm hfree, gmatch_nil_text]
            exact hall
        rw [hmain]
        rcases Bool.eq_false_or_eq_true ((P.drop pi).all fun c => c = '*') with hall | hall
        · rw [hall]
          have hss : skipStars P pi = P.length :=
            (skipStars_spec P (P.length - pi) pi (Nat.le_refl _) hpiL).mpr hall
          simp [hss]
        · rw [hall]
          have hss : ¬(skipStars P pi = P.length) := fun hcon => by
            have h2 := (skipStars_spec P (P.length - pi) pi (Nat.le_refl _) hpiL).mp hcon
            rw [h2] at hall
            cases hall
          simp [hss]

/-- `MatchLike` agrees with the declarative glob semantics on names free of
literal `*` characters. -/
theorem MatchLike_eq_gmatch (name pat : List Char) (hname : ∀ c ∈ name, c ≠ '*') :
    MatchLike name pat = gmatch pat name := by
  unfold MatchLike
  refine matchLoop_eq_gmatch name pat hname _ 0 0 none 0
    ⟨Nat.le_refl 0, Nat.zero_le _, Nat.zero_le _, by simp⟩ ?_
  have hexp : (name.length + 1) * (name.length + pat.length + 2)
      = name.length * (name.length + pat.length + 2)
        + (name.length + pat.length + 2) := by ring
  unfold loopMeasure
  simp only [Nat.sub_zero]
  omega

/-- C7 counterexample: with no literal items and the single rule pattern
`*a`, the name `*ba` is glob-matched under the spec's semantics (`*` takes
the span `*b`), yet `is_impounded` returns false: `MatchLike`'s literal
branch consumes the pattern's `*` against the name's literal `*` before
the star branch can register it. -/
theorem is_impounded_claim_false :
    IsImpounded [] [{ tag := [], pattern := ['*', 'a'] }] ['*', 'b', 'a'] = false
    ∧ gmatch ['*', 'a'] ['*', 'b', 'a'] = true := by
  constructor
  · decide
  · apply (gmatch_star_iff ['a'] ['*', 'b', 'a']).mpr
    refine ⟨2, by norm_num, ?_⟩
    show gmatch ['a'] ['a'] = true
    rw [gmatch_lit_cons _ _ _ (by decide), gmatch_nil_pat]
    decide

/-- C7 (amended): for every configured impound state and every name that
does not contain the character `*`, `is_impounded(name)` is true iff the
name is one of the literal items or some rule's pattern glob-matches it
(`*` matching any span including the empty span, `?` exactly one
character).  For names containing a literal `*` the matcher can miss
matches, as the counterexample shows. -/
theorem is_impounded_iff_glob (items : List (List Char)) (rules : List ImpoundRule)
    (name : List Char) (hname : ∀ c ∈ name, c ≠ '*') :
    IsImpounded items rules name
      = (items.any (fun s => s = name) || rules.any (fun r => gmatch r.pattern name)) := by
  unfold IsImpounded
  congr 1
  induction rules with
  | nil => rfl
  | cons r rs ih =>
    rw [List.any_cons, List.any_cons, MatchLike_eq_gmatch name r.pattern hname, ih]

/-- Witness for the amended C7 theorem at a concrete impound state. -/
theorem is_impounded_iff_glob_witness :
    IsImpounded [['x']] [{ tag := [], pattern := ['a', '*'] }] ['a', 'b']
      = (List.any [['x']] (fun s => s = ['a', 'b'])
         || List.any ([{ tag := [], pattern := ['a', '*'] }] : List ImpoundRule)
              (fun r => gmatch r.pattern ['a', 'b'])) :=
  is_impounded_iff_glob [['x']] [{ tag := [], pattern := ['a', '*'] }] ['a', 'b']
    (by decide)

/-! ### Worker pool drain invariant -/

theorem poolInv_init (cfg : PoolCfg) : PoolInv (PoolInit cfg) := by
  unfold PoolInv PoolInit PoolSt.pendingTotal
  refine ⟨rfl, rfl, rfl, rfl, by simp, by simp, by simp, ?_⟩
  by_cases h : cfg.workers = 0 <;> simp [h] <;> omega

theorem poolInv_step (cfg : PoolCfg) (hdrain : cfg.drainOnStop = true)
    {a b : PoolSt} (hstep : PoolStep cfg a b) (hinv : PoolInv a) : PoolInv b := by
  obtain ⟨h1, h2, h3, h4, h5, h6, h7, h8⟩ := hinv
  unfold PoolSt.pendingTotal at h7
  cases hstep with
  | enqueue l hrun hnstop =>
    unfold PoolInv PoolSt.pendingTotal
    cases l <;>
    · dsimp only [PoolSt.q, PoolSt.setQ]
      refine ⟨by omega, by omega, by omega, by omega, h5, h6, ?_, by omega⟩
      rintro ⟨hcs, -, -, -, -, -⟩
      rw [hnstop] at hcs
      cases hcs
  | pop l hidle hpend =>
    unfold PoolInv PoolSt.pendingTotal
    dsimp only [PoolSt.q] at hpend
    cases l <;>
    · dsimp only [PoolSt.q, PoolSt.setQ, PoolSt.setBusy, PoolSt.busyCount] at hpend ⊢
      refine ⟨by omega, by omega, by omega, by omega, h5, h6, ?_, by omega⟩
      rintro ⟨-, hci, hcb1, hcb2, hcb3, hcb4⟩
      omega
  | complete l thrown hbusy =>
    unfold PoolInv PoolSt.pendingTotal
    dsimp only [PoolSt.busyCount] at hbusy
    cases l <;>
    · dsimp only [PoolSt.q, PoolSt.setQ, PoolSt.setBusy, PoolSt.busyCount] at hbusy ⊢
      refine ⟨by omega, by omega, by omega, by omega, h5, h6, ?_, by omega⟩
      rintro ⟨-, hci, hcb1, hcb2, hcb3, hcb4⟩
      omega
  | stop hrun =>
    rw [if_pos hdrain]
    unfold PoolInv PoolSt.pendingTotal
    dsimp only []
    refine ⟨h1, h2, h3, h4, fun _ => rfl, fun _ => rfl, ?_, by omega⟩
    rintro ⟨-, hci, hcb1, hcb2, hcb3, hcb4⟩
    have hex : 0 < a.exited := by omega
    have h0 := h5 (h6 hex)
    rw [hrun] at h0
    cases h0
  | exit hidle hstop2 hpend =>
    unfold PoolInv PoolSt.pendingTotal
    dsimp only []
    refine ⟨h1, h2, h3, h4, h5, fun _ => hstop2, ?_, by omega⟩
    intro _hc
    have hp0 := hpend hdrain
    unfold PoolSt.pendingTotal at hp0
    exact hp0


theorem poolInv_reachable (cfg : PoolCfg) (hdrain : cfg.drainOnStop = true)
    {st : PoolSt} (h : Relation.ReflTransGen (PoolStep cfg) (PoolInit cfg) st) :
    PoolInv st := by
  induction h with
  | refl => exact poolInv_init cfg
  | tail _ hbc ih => exact poolInv_step cfg hdrain hbc ih

/-- C5: for the pool with `drain_on_stop = true`, in every reachable state
in which `stop()` has returned (all workers joined), the sum of the four
executed counters equals the sum of the four enqueued counters — every
accepted task was executed, including tasks whose callable threw. -/
theorem pool_drain_executes_all (cfg : PoolCfg) (hdrain : cfg.drainOnStop = true)
    (st : PoolSt) (hreach : Relation.ReflTransGen (PoolStep cfg) (PoolInit cfg) st)
    (hstop : StopReturned st) :
    st.execTotal = st.enqTotal := by
  obtain ⟨h1, h2, h3, h4, -, -, h7, -⟩ := poolInv_reachable cfg hdrain hreach
  obtain ⟨hs, hi, hbh, hbn, hbl, hbi⟩ := hstop
  have hp : st.pendingTotal = 0 := h7 ⟨hs, hi, hbh, hbn, hbl, hbi⟩
  unfold PoolSt.pendingTotal at hp
  unfold PoolSt.execTotal PoolSt.enqTotal
  omega

/-- Witness for C5: one worker; one High task is enqueued, popped and
completed; then `stop()` and the worker's exit.  Executed = enqueued. -/
theorem pool_drain_executes_all_witness :
    PoolSt.execTotal
        { running := false, stopping := true,
          qHigh := ⟨0, 1, 1⟩, qNormal := ⟨0, 0, 0⟩, qLow := ⟨0, 0, 0⟩, qIO := ⟨0, 0, 0⟩,
          idle := 0, busyHigh := 0, busyNormal := 0, busyLow := 0, busyIO := 0,
          exited := 1 }
      = PoolSt.enqTotal
        { running := false, stopping := true,
          qHigh := ⟨0, 1, 1⟩, qNormal := ⟨0, 0, 0⟩, qLow := ⟨0, 0, 0⟩, qIO := ⟨0, 0, 0⟩,
          idle := 0, busyHigh := 0, busyNormal := 0, busyLow := 0, busyIO := 0,
          exited := 1 } := by
  apply pool_drain_executes_all ⟨1, true⟩ rfl
  · refine Relation.ReflTransGen.head (PoolStep.enqueue _ Lane.high rfl rfl) ?_
    refine Relation.ReflTransGen.head (PoolStep.pop _ Lane.high (by decide) (by decide)) ?_
    refine Relation.ReflTransGen.head
      (PoolStep.complete _ Lane.high false (by decide)) ?_
    refine Relation.ReflTransGen.head (PoolStep.stop _ rfl) ?_
    refine Relation.ReflTransGen.head
      (PoolStep.exit _ (by decide) rfl (fun _ => rfl)) ?_
    exact Relation.ReflTransGen.refl
  · exact ⟨rfl, rfl, rfl, rfl, rfl, rfl⟩

/-- C3 (code bug): loading the spec's chaining scenario config
`entities = [a: "2+3", b: "a*4"]` stages `a = 5`, but `b`'s equation
`a*4` fails to evaluate: after reading the identifier `a`, `emitRPN`
peeks the next token (the `*`) and drops it — the comment says "next
token resumes", but the lexer has already consumed it — leaving the RPN
`[a, 4]`, which `evalRPN` rejects as an invalid expression.  `b` is
skipped, so `compound.get("b")` yields nothing instead of 20. -/
theorem compound_chaining_code_bug :
    CompoundGet [] [⟨"a", ['2', '+', '3'], []⟩, ⟨"b", ['a', '*', '4'], []⟩] "b" = none
    ∧ CompoundGet [] [⟨"a", ['2', '+', '3'], []⟩, ⟨"b", ['a', '*', '4'], []⟩] "a"
        = some 5
    ∧ ResolveEquation ['a', '*', '4'] [("a", (5 : ℚ))]
        = Except.error "Invalid expression" := by
  refine ⟨by rfl, ?_, by rfl⟩
  norm_num +decide [CompoundGet, compoundConfigureLoop, ResolveEquation, emitRPN,
    emitLoop, lexNext, evalRPN, evalSteps, parseNumber, digitsToNat, applyExp,
    isSpaceC, isDigitC, isAlphaC, isAlnumC, isIdStart, isIdChar, endToken,
    lparenToken, drainOps, unwindToParen, popWhileOps, precedence, rightAssoc,
    isFnName, List.lookup, (show '2'.toNat = 50 from rfl), (show '3'.toNat = 51 from rfl)]

/-- Witness for the amended C6 theorem at a concrete ASCII-named config. -/
theorem config_roundtrip_legal_ascii_witness :
    ConfigLoad (ConfigToJSON { upscaler := true, traffic := 2, ipcEnabled := true,
                               ipcPipeName := [92, 112], logLevel := .warn })
      = { upscaler := true, traffic := 2, ipcEnabled := true,
          ipcPipeName := [92, 112], logLevel := .warn } :=
  config_roundtrip_legal_ascii _ ⟨by norm_num, by norm_num, by decide⟩ (by decide)

end MirrorBlade
